import Mathlib

/-!
Verification of the forward-pass computation in the notebook
"Part 2 - Neural Networks in PyTorch (Exercises)".

Tensors of shape (N, M) are modelled as `List (List α)` (a list of N rows,
each of length M) over a field `α`; the notebook's float arithmetic is
modelled exactly over `ℚ` (for the hand-rolled operations, which use only
field arithmetic) and over `ℝ` (for the operations involving `exp`).
`torch.mm`'s failure on an inner-dimension mismatch is modelled with
`Except (Nat × Nat)`, the error value carrying the expected and the actual
inner dimension.
-/

namespace Notebook

variable {α : Type} [Field α]

/-- Number of columns of a list-matrix: the length of its first row. -/
def nCols (B : List (List α)) : Nat := (B.headD []).length

/-- Dot product of two equally long vectors. -/
def dotList (a b : List α) : α := (List.zipWith (· * ·) a b).sum

/-- Column `j` of a list-matrix (entries read with default 0). -/
def col (B : List (List α)) (j : Nat) : List α := B.map (fun r => r.getD j 0)

/-- Entry `(i, j)` of a list-matrix, with default 0 out of range. -/
def entry (M : List (List α)) (i j : Nat) : α := (M.getD i []).getD j 0

/-- Matrix product `A * B` without the dimension check: row `i` of the
result is the dot product of row `i` of `A` with each column of `B`. -/
def mmRaw (A B : List (List α)) : List (List α) :=
  A.map (fun r => (List.range (nCols B)).map (fun j => dotList r (col B j)))

/-- `torch.mm A B`: matrix product, failing fast (producing no output at
all) when the inner dimensions disagree, as `torch.mm` does.  The error
carries `(expected, actual)`: the row count of `B` and the row width of
`A`. -/
def mm (A B : List (List α)) : Except (Nat × Nat) (List (List α)) :=
  if A.all (fun r => r.length == B.length) then .ok (mmRaw A B)
  else .error (B.length, nCols A)

/-- Broadcast addition of a bias row to every row of a matrix, as in
`torch.mm(input, W1) + B1` with `B1` of shape `(1, n)`. -/
def addBias (M : List (List α)) (b : List α) : List (List α) :=
  M.map (fun r => List.zipWith (· + ·) r b)

/-- One linear layer `x·W + b` (the notebook's
`torch.mm(input, W1) + B1`, and the affine map computed by `nn.Linear`):
the matrix product followed by the broadcast bias addition, failing fast
with the mismatched dimensions when shapes disagree. -/
def linear (x W : List (List α)) (b : List α) :
    Except (Nat × Nat) (List (List α)) :=
  (mm x W).bind (fun y =>
    if nCols W == b.length then .ok (addBias y b)
    else .error (b.length, nCols W))

/-- Apply a scalar function to every entry of a batch (elementwise tensor
operation). -/
def mapBatch (f : α → α) (x : List (List α)) : List (List α) :=
  x.map (fun r => r.map f)

/-- The notebook's hand-rolled softmax (cell `def softmax`):
`x / torch.sum(x, dim=1).view(x.shape[0], -1)`, i.e. every row is divided
elementwise by the sum of its RAW (non-exponentiated) entries.  Division
by zero is total in the model (`a / 0 = 0`), matching Lean's field
division. -/
def softmax (x : List (List α)) : List (List α) :=
  x.map (fun r => r.map (fun a => a / r.sum))

/-- The notebook's `activation` function (and `nn.Sigmoid` / `F.sigmoid`)
on a scalar: `1 / (1 + torch.exp(-x))`. -/
noncomputable def sigmoid (x : ℝ) : ℝ := 1 / (1 + Real.exp (-x))

/-- The notebook's `activation` applied to a whole tensor, elementwise
(cell `def activation(x): return 1 / (1 + torch.exp(-x))`). -/
noncomputable def activation (x : List (List ℝ)) : List (List ℝ) :=
  mapBatch sigmoid x

/-- `nn.ReLU` / `F.relu` on a scalar: `max(0, x)`. -/
def relu (x : ℝ) : ℝ := max 0 x

/-- One row of `nn.Softmax(dim=1)`: the library softmax,
`exp(x_i) / Σ_k exp(x_k)`. -/
noncomputable def rowSoftmax (r : List ℝ) : List ℝ :=
  r.map (fun a => Real.exp a / (r.map Real.exp).sum)

/-- `nn.Softmax(dim=1)` / `F.softmax(·, dim=1)`: the library softmax
applied to every row of the batch. -/
noncomputable def nnSoftmax (x : List (List ℝ)) : List (List ℝ) :=
  x.map rowSoftmax

/-- Modelled from the spec's words, for comparison with the notebook's
`softmax` (claim C1): row_out[i] = e^(row_in[i] − m) / Σ_k e^(row_in[k] − m)
with `m` the maximum value of the row. -/
noncomputable def specSoftmax (x : List (List ℝ)) : List (List ℝ) :=
  x.map (fun r =>
    r.map (fun a => Real.exp (a - r.foldr max (r.headD 0)) /
      (r.map (fun b => Real.exp (b - r.foldr max (r.headD 0)))).sum))

/-- `Network.forward` of the notebook's `nn.Module` network, with the layer
parameters passed explicitly (`forward(batch_input, parameters)` in the
spec's interface): hidden linear layer, sigmoid, output linear layer,
softmax over columns.  The hidden width is left as a parameter shape; the
notebook instantiates it at 256. -/
noncomputable def forward (x W1 : List (List ℝ)) (b1 : List ℝ)
    (W2 : List (List ℝ)) (b2 : List ℝ) :
    Except (Nat × Nat) (List (List ℝ)) :=
  match linear x W1 b1 with
  | .error e => .error e
  | .ok h =>
    match linear (activation h) W2 b2 with
    | .error e => .error e
    | .ok o => .ok (nnSoftmax o)

/-- Kinds of layers appearing in the notebook's network definitions,
recording the declared dimensions of each linear layer. -/
inductive LayerKind where
  | linearK : Nat → Nat → LayerKind
  | sigmoidK : LayerKind
  | reluK : LayerKind
  | softmaxK : LayerKind
deriving DecidableEq

/-- The layer sequence of the notebook's "Your Turn to Build a Network"
solution cell (`## Your solution here`): `nn.Linear(784, 256)`,
`F.sigmoid`, `nn.Linear(256, 10)`, `F.softmax(·, dim=1)`, in the order
`forward` applies them. -/
def yourTurnNetworkLayers : List LayerKind :=
  [.linearK 784 256, .sigmoidK, .linearK 256 10, .softmaxK]

/-- The layer sequence of the notebook's `nn.Sequential` model:
`nn.Linear(784, 128)`, `nn.ReLU()`, `nn.Linear(128, 64)`, `nn.ReLU()`,
`nn.Linear(64, 10)`, `nn.Softmax(dim=1)`. -/
def sequentialModelLayers : List LayerKind :=
  [.linearK 784 128, .reluK, .linearK 128 64, .reluK,
   .linearK 64 10, .softmaxK]

/-- Modelled from the spec's words (claim C8): the layer sequence the
claim asserts for the "your turn" network:
Linear(784→128) → ReLU → Linear(128→64) → ReLU → Linear(64→10) → Softmax. -/
def specYourTurnLayers : List LayerKind :=
  [.linearK 784 128, .reluK, .linearK 128 64, .reluK,
   .linearK 64 10, .softmaxK]

end Notebook

namespace Notebook

/-! ## Shape lemmas for the list-matrix operations -/

variable {α : Type} [Field α]

theorem length_mmRaw (A B : List (List α)) : (mmRaw A B).length = A.length := by
  simp [mmRaw]

theorem mem_mmRaw_length {A B : List (List α)} {r : List α}
    (hr : r ∈ mmRaw A B) : r.length = nCols B := by
  simp only [mmRaw, List.mem_map] at hr
  obtain ⟨s, _, rfl⟩ := hr
  simp

theorem mm_ok_of_uniform {A B : List (List α)}
    (h : ∀ r ∈ A, r.length = B.length) : mm A B = .ok (mmRaw A B) := by
  unfold mm
  rw [if_pos]
  rw [List.all_eq_true]
  intro r hr
  exact beq_iff_eq.mpr (h r hr)

theorem length_addBias (M : List (List α)) (b : List α) :
    (addBias M b).length = M.length := by
  simp [addBias]

theorem mem_addBias_length {M : List (List α)} {b : List α} {r : List α}
    (hr : r ∈ addBias M b) : ∃ s ∈ M, r.length = min s.length b.length := by
  simp only [addBias, List.mem_map] at hr
  obtain ⟨s, hs, rfl⟩ := hr
  exact ⟨s, hs, by simp⟩

theorem linear_ok_of_uniform {x W : List (List α)} {b : List α}
    (hx : ∀ r ∈ x, r.length = W.length) (hb : nCols W = b.length) :
    linear x W b = .ok (addBias (mmRaw x W) b) := by
  unfold linear
  rw [mm_ok_of_uniform hx]
  simp [Except.bind, hb]

omit [Field α] in
theorem length_mapBatch (f : α → α) (x : List (List α)) :
    (mapBatch f x).length = x.length := by
  simp [mapBatch]

omit [Field α] in
theorem mem_mapBatch_length {f : α → α} {x : List (List α)} {r : List α}
    (hr : r ∈ mapBatch f x) : ∃ s ∈ x, r.length = s.length := by
  simp only [mapBatch, List.mem_map] at hr
  obtain ⟨s, hs, rfl⟩ := hr
  exact ⟨s, hs, by simp⟩

theorem length_rowSoftmax (r : List ℝ) : (rowSoftmax r).length = r.length := by
  simp [rowSoftmax]

theorem length_nnSoftmax (x : List (List ℝ)) :
    (nnSoftmax x).length = x.length := by
  simp [nnSoftmax]

theorem mem_nnSoftmax_length {x : List (List ℝ)} {r : List ℝ}
    (hr : r ∈ nnSoftmax x) : ∃ s ∈ x, r.length = s.length := by
  simp only [nnSoftmax, List.mem_map] at hr
  obtain ⟨s, hs, rfl⟩ := hr
  exact ⟨s, hs, length_rowSoftmax s⟩

/-- A zipWith-product sum is the corresponding `Finset.range` sum over the
entries (read with default 0), up to the common length. -/
theorem dotList_eq_sum (a b : List α) :
    dotList a b =
      ∑ k ∈ Finset.range (min a.length b.length), a.getD k 0 * b.getD k 0 := by
  induction a generalizing b with
  | nil => simp [dotList]
  | cons x xs ih =>
    cases b with
    | nil => simp [dotList]
    | cons y ys =>
      have hmin : min (xs.length + 1) (ys.length + 1) =
          min xs.length ys.length + 1 := Nat.succ_min_succ _ _
      simp only [dotList, List.zipWith_cons_cons, List.sum_cons, List.length_cons,
        hmin, Finset.sum_range_succ']
      simp only [List.getD_cons_succ, List.getD_cons_zero]
      rw [← dotList]
      rw [ih ys]
      ring

/-- Entry `(i, j)` of a bias-broadcast addition is the matrix entry plus
the `j`-th bias component. -/
theorem entry_addBias (M : List (List α)) (b : List α) (i j : Nat)
    (hi : i < M.length) (hj : j < (M.getD i []).length) (hjb : j < b.length) :
    entry (addBias M b) i j = entry M i j + b.getD j 0 := by
  have hMi : M.getD i [] = M[i] := List.getD_eq_getElem M [] hi
  rw [hMi] at hj
  have hi2 : i < (addBias M b).length := by simpa [length_addBias] using hi
  have hz : j < (List.zipWith (· + ·) M[i] b).length := by
    rw [List.length_zipWith]
    exact lt_min_iff.mpr ⟨hj, hjb⟩
  unfold entry
  rw [List.getD_eq_getElem _ [] hi2]
  have hrow : (addBias M b)[i] = List.zipWith (· + ·) M[i] b := by
    simp [addBias]
  rw [hrow, List.getD_eq_getElem _ 0 hz, List.getElem_zipWith, hMi,
    List.getD_eq_getElem _ 0 hj, List.getD_eq_getElem b 0 hjb]

/-- Entry `(i, j)` of the raw matrix product is the dot product of row `i`
of the left factor with column `j` of the right factor, written as a
`Finset.range` sum over the inner dimension. -/
theorem entry_mmRaw (x W : List (List α)) (i j : Nat)
    (hi : i < x.length) (hj : j < nCols W)
    (hxi : (x.getD i []).length = W.length) :
    entry (mmRaw x W) i j =
      ∑ k ∈ Finset.range W.length, entry x i k * entry W k j := by
  have hMi : x.getD i [] = x[i] := List.getD_eq_getElem x [] hi
  have hi2 : i < (mmRaw x W).length := by simpa [length_mmRaw] using hi
  have hrow : (mmRaw x W)[i] =
      (List.range (nCols W)).map (fun j => dotList x[i] (col W j)) := by
    simp [mmRaw]
  have hj2 : j < ((List.range (nCols W)).map
      (fun j => dotList x[i] (col W j))).length := by simpa using hj
  unfold entry
  rw [List.getD_eq_getElem _ [] hi2, hrow, List.getD_eq_getElem _ 0 hj2,
    List.getElem_map, List.getElem_range, dotList_eq_sum]
  have hlen : min (x[i]).length (col W j).length = W.length := by
    rw [hMi] at hxi
    simp [col, hxi]
  rw [hlen]
  apply Finset.sum_congr rfl
  intro k hk
  rw [Finset.mem_range] at hk
  congr 1
  · rw [hMi]
  · unfold col
    rw [List.getD_eq_getElem _ 0 (by simpa using hk), List.getElem_map,
      List.getD_eq_getElem W [] hk]

/-! ## Claim theorems -/

/-- Claim C2 (counter-evidence for the code bug): the notebook's `softmax`
divides by the raw row sum, so on the row `[-1, 2]` it returns the row
unchanged, which contains entries outside `[0, 1]` even though the row
sums to 1. -/
theorem softmax_row_not_in_unit_interval :
    softmax [[(-1 : ℚ), 2]] = [[-1, 2]] ∧
    ¬ (∀ r ∈ softmax [[(-1 : ℚ), 2]], ∀ a ∈ r, 0 ≤ a ∧ a ≤ 1) := by
  have h1 : softmax [[(-1 : ℚ), 2]] = [[-1, 2]] := by
    norm_num [softmax]
  refine ⟨h1, fun hall => ?_⟩
  have h2 := (hall [-1, 2] (by rw [h1]; exact List.mem_cons_self _ _) (-1)
    (List.mem_cons_self _ _)).1
  norm_num at h2

/-- Claim C3 (counter-evidence for the code bug): the notebook's `softmax`
is not shift-invariant: adding 1 to every entry of the batch `[[0, 1]]`
changes the output from `[[0, 1]]` to `[[1/3, 2/3]]`. -/
theorem softmax_not_shift_invariant :
    softmax [[(0 : ℚ), 1]] ≠
      softmax (mapBatch (fun a => a + 1) [[(0 : ℚ), 1]]) := by
  have ha : softmax [[(0 : ℚ), 1]] = [[0, 1]] := by norm_num [softmax]
  have hb : softmax (mapBatch (fun a => a + 1) [[(0 : ℚ), 1]]) =
      [[1 / 3, 2 / 3]] := by
    norm_num [softmax, mapBatch]
  rw [ha, hb]
  intro h
  norm_num at h

/-- Claim C8 (counter-evidence for the code bug): the "Your Turn" solution
cell's network applies no ReLU at all — it is
Linear(784→256) → Sigmoid → Linear(256→10) → Softmax — while the claimed
deeper ReLU composition is exactly the later `nn.Sequential` model, not
the your-turn network. -/
theorem your_turn_network_layers_differ :
    LayerKind.reluK ∉ yourTurnNetworkLayers ∧
    LayerKind.sigmoidK ∈ yourTurnNetworkLayers ∧
    yourTurnNetworkLayers ≠ specYourTurnLayers ∧
    sequentialModelLayers = specYourTurnLayers := by
  decide

/-- Claim C9: the notebook's `softmax` divides each row by its raw sum
with no guard, so on any batch whose `i`-th row sums to zero the
denominator is that zero sum; in the total model of division
(`a / 0 = 0`) the output row collapses to all zeros and sums to 0, not
to 1 — no probability distribution is produced. -/
theorem softmax_zero_sum_row (x : List (List ℚ)) (i : Nat)
    (hi : i < x.length) (h : (x.getD i []).sum = 0) :
    (softmax x).getD i [] = List.replicate (x.getD i []).length (0 : ℚ) ∧
    ((softmax x).getD i []).sum = 0 := by
  have hx : x.getD i [] = x[i] := List.getD_eq_getElem x [] hi
  have hlen : i < (softmax x).length := by simpa [softmax] using hi
  have hs : (softmax x).getD i [] =
      (x[i]).map (fun a => a / (x[i]).sum) := by
    rw [List.getD_eq_getElem (softmax x) [] hlen]
    simp [softmax]
  rw [hx] at h
  constructor
  · rw [hs, h, hx]
    simp [div_zero]
  · rw [hs, h]
    simp [div_zero]

/-- Witness for C9 at the concrete batch `[[1, -1]]`, whose single row
sums to zero. -/
theorem softmax_zero_sum_row_witness :
    ((0 < ([[(1 : ℚ), -1]] : List (List ℚ)).length) ∧
      (([[(1 : ℚ), -1]] : List (List ℚ)).getD 0 []).sum = 0) ∧
    ((softmax [[(1 : ℚ), -1]]).getD 0 [] =
        List.replicate (([[(1 : ℚ), -1]] : List (List ℚ)).getD 0 []).length
          (0 : ℚ) ∧
      ((softmax [[(1 : ℚ), -1]]).getD 0 []).sum = 0) :=
  ⟨⟨by decide, by norm_num⟩,
    softmax_zero_sum_row [[1, -1]] 0 (by decide) (by norm_num)⟩

/-- Claim C10: the notebook's `softmax` is scale-invariant: multiplying
every entry of the batch by a nonzero scalar `c` leaves the output
unchanged exactly, provided every row has a nonzero sum. -/
theorem softmax_scale_invariant (x : List (List ℚ)) (c : ℚ) (hc : c ≠ 0)
    (h : ∀ r ∈ x, r.sum ≠ 0) :
    softmax (mapBatch (fun a => c * a) x) = softmax x := by
  unfold softmax mapBatch
  rw [List.map_map]
  apply List.map_congr_left
  intro r hr
  have hsum : ((r.map (fun a => c * a)).sum) = c * r.sum := by
    simpa using List.sum_map_mul_left r id c
  simp only [Function.comp_apply, List.map_map, hsum]
  apply List.map_congr_left
  intro a _
  simp only [Function.comp_apply]
  exact mul_div_mul_left a r.sum hc

/-- Witness for C10 at the concrete batch `[[1, 2]]` and scalar 3. -/
theorem softmax_scale_invariant_witness :
    ((3 : ℚ) ≠ 0 ∧ ∀ r ∈ ([[(1 : ℚ), 2]] : List (List ℚ)), r.sum ≠ 0) ∧
    softmax (mapBatch (fun a => (3 : ℚ) * a) [[(1 : ℚ), 2]]) =
      softmax [[(1 : ℚ), 2]] :=
  ⟨⟨by norm_num, by norm_num⟩,
    softmax_scale_invariant [[1, 2]] 3 (by norm_num) (by norm_num)⟩

/-- Claim C6: feeding a batch of width 784 into a linear layer whose
weight matrix expects input width 256 fails before any output is
produced, with the error carrying the expected dimension 256 and the
actual dimension 784; no silent broadcasting occurs and no partial
result is returned. -/
theorem linear_shape_mismatch (x W : List (List α)) (b : List α)
    (hx0 : x ≠ []) (hx : ∀ r ∈ x, r.length = 784) (hW : W.length = 256) :
    linear x W b = .error (256, 784) ∧ ∀ y, linear x W b ≠ .ok y := by
  obtain ⟨r0, t, rfl⟩ := List.exists_cons_of_ne_nil hx0
  have hall : (r0 :: t).all (fun r => r.length == W.length) = false := by
    rw [List.all_eq_false]
    refine ⟨r0, List.mem_cons_self r0 t, ?_⟩
    rw [hx r0 (List.mem_cons_self r0 t), hW]
    decide
  have hmm : mm (r0 :: t) W = .error (256, 784) := by
    unfold mm
    rw [hall]
    simp [nCols, hW, hx r0 (List.mem_cons_self r0 t)]
  constructor
  · unfold linear
    rw [hmm]
    rfl
  · intro y
    unfold linear
    rw [hmm]
    intro hcon
    exact Except.noConfusion hcon

/-- Witness for C6 at a concrete batch of one all-zero row of width 784
and a weight matrix of 256 rows. -/
theorem linear_shape_mismatch_witness :
    (([List.replicate 784 (0 : ℚ)] : List (List ℚ)) ≠ [] ∧
      (∀ r ∈ ([List.replicate 784 (0 : ℚ)] : List (List ℚ)),
        r.length = 784) ∧
      (List.replicate 256 ([] : List ℚ)).length = 256) ∧
    linear [List.replicate 784 (0 : ℚ)] (List.replicate 256 ([] : List ℚ))
        ([] : List ℚ) = .error (256, 784) :=
  ⟨⟨List.cons_ne_nil _ _,
    fun r hr => by rw [List.mem_singleton.mp hr, List.length_replicate],
    List.length_replicate 256 []⟩,
    (linear_shape_mismatch [List.replicate 784 (0 : ℚ)]
      (List.replicate 256 ([] : List ℚ)) [] (List.cons_ne_nil _ _)
      (fun r hr => by rw [List.mem_singleton.mp hr, List.length_replicate])
      (List.length_replicate 256 [])).1⟩

/-- Claim C1 (counter-evidence for the code bug): on the batch `[[0, 1]]`
the notebook's `softmax` returns `[[0, 1]]` — it divides each row by its
raw sum — while the spec's exp-based formula
`e^(x_i − m) / Σ_k e^(x_k − m)` gives a strictly positive first entry, so
the two disagree. -/
theorem softmax_deviates_from_spec_formula :
    softmax [[(0 : ℝ), 1]] = [[0, 1]] ∧
    specSoftmax [[(0 : ℝ), 1]] ≠ [[0, 1]] := by
  constructor
  · norm_num [softmax]
  · intro hEq
    have h := congrArg (fun M => entry M 0 0) hEq
    simp only [entry, specSoftmax, List.map_cons, List.map_nil,
      List.getD_cons_zero, List.headD_cons, List.foldr_cons, List.foldr_nil,
      List.sum_cons, List.sum_nil] at h
    exact absurd h (ne_of_gt (by positivity))

/-- Claim C7: the notebook's `activation` (sigmoid) is
`1 / (1 + e^(−x))`; it maps 0 to 1/2, is strictly increasing, tends to 0
at −∞ and to 1 at +∞, and its value stays strictly inside `(0, 1)` for
every input of magnitude up to 10 000 (the real-valued model of absence
of overflow). -/
theorem sigmoid_correct :
    (∀ x : ℝ, sigmoid x = 1 / (1 + Real.exp (-x))) ∧
    sigmoid 0 = 1 / 2 ∧
    StrictMono sigmoid ∧
    Filter.Tendsto sigmoid Filter.atBot (nhds 0) ∧
    Filter.Tendsto sigmoid Filter.atTop (nhds 1) ∧
    ∀ x : ℝ, |x| ≤ 10000 → 0 < sigmoid x ∧ sigmoid x < 1 := by
  refine ⟨fun x => rfl, ?_, ?_, ?_, ?_, ?_⟩
  · norm_num [sigmoid, Real.exp_zero]
  · intro a b hab
    have he : Real.exp (-b) < Real.exp (-a) := Real.exp_lt_exp.mpr (by linarith)
    have hb0 : 0 < 1 + Real.exp (-b) := by positivity
    have hlt : 1 + Real.exp (-b) < 1 + Real.exp (-a) := by linarith
    exact one_div_lt_one_div_of_lt hb0 hlt
  · have h2 : Filter.Tendsto (fun x : ℝ => Real.exp (-x))
        Filter.atBot Filter.atTop :=
      Real.tendsto_exp_atTop.comp Filter.tendsto_neg_atBot_atTop
    have h3 : Filter.Tendsto (fun x : ℝ => 1 + Real.exp (-x))
        Filter.atBot Filter.atTop :=
      Filter.tendsto_atTop_add_const_left _ 1 h2
    have h4 : Filter.Tendsto (fun x : ℝ => 1 / (1 + Real.exp (-x)))
        Filter.atBot (nhds 0) :=
      Filter.Tendsto.div_atTop tendsto_const_nhds h3
    exact h4
  · have h2 : Filter.Tendsto (fun x : ℝ => Real.exp (-x))
        Filter.atTop (nhds 0) :=
      Real.tendsto_exp_atBot.comp Filter.tendsto_neg_atTop_atBot
    have h3 : Filter.Tendsto (fun x : ℝ => 1 + Real.exp (-x))
        Filter.atTop (nhds 1) := by
      simpa using tendsto_const_nhds.add h2
    have h4 : Filter.Tendsto (fun x : ℝ => 1 / (1 + Real.exp (-x)))
        Filter.atTop (nhds (1 / 1)) :=
      Filter.Tendsto.div tendsto_const_nhds h3 one_ne_zero
    have h5 : Filter.Tendsto (fun x : ℝ => 1 / (1 + Real.exp (-x)))
        Filter.atTop (nhds 1) := by
      simpa using h4
    exact h5
  · intro x _
    refine ⟨by unfold sigmoid; positivity, ?_⟩
    unfold sigmoid
    rw [div_lt_one (by positivity)]
    have := Real.exp_pos (-x)
    linarith

/-- Witness for C7: the strict monotonicity at `0 < 1` and the bounds at
the concrete input 5 (whose magnitude is within 10 000). -/
theorem sigmoid_correct_witness :
    ((0 : ℝ) < 1 ∧ sigmoid 0 < sigmoid 1) ∧
    (|(5 : ℝ)| ≤ 10000 ∧ 0 < sigmoid 5 ∧ sigmoid 5 < 1) :=
  ⟨⟨by norm_num, sigmoid_correct.2.2.1 (by norm_num)⟩,
   ⟨by norm_num, sigmoid_correct.2.2.2.2.2 5 (by norm_num)⟩⟩

/-- Claim C5: with an input batch of shape (N, D_in), a weight matrix of
shape (D_in, D_out) and a bias of length D_out, the linear layer
succeeds and produces a batch of N rows of length D_out whose entry
`(i, j)` is `Σ_k x[i][k] * W[k][j] + b[j]` — the matrix product of the
input row with the weight matrix plus the broadcast bias.  The model is
a pure function, so there are no side effects. -/
theorem linear_correct (x W : List (List α)) (b : List α)
    (hx : ∀ r ∈ x, r.length = W.length)
    (hW : ∀ r ∈ W, r.length = nCols W)
    (hb : b.length = nCols W) :
    ∃ y, linear x W b = .ok y ∧ y.length = x.length ∧
      (∀ r ∈ y, r.length = nCols W) ∧
      ∀ i j, i < x.length → j < nCols W →
        entry y i j =
          (∑ k ∈ Finset.range W.length, entry x i k * entry W k j) +
            b.getD j 0 := by
  refine ⟨addBias (mmRaw x W) b, linear_ok_of_uniform hx hb.symm, ?_, ?_, ?_⟩
  · simp [length_addBias, length_mmRaw]
  · intro r hr
    obtain ⟨s, hs, hrl⟩ := mem_addBias_length hr
    rw [hrl, mem_mmRaw_length hs, hb, min_self]
  · intro i j hi hj
    have hxi : (x.getD i []).length = W.length := by
      rw [List.getD_eq_getElem x [] hi]
      exact hx _ (List.getElem_mem hi)
    have hiM : i < (mmRaw x W).length := by simpa [length_mmRaw] using hi
    have hjM : j < ((mmRaw x W).getD i []).length := by
      rw [List.getD_eq_getElem _ [] hiM,
        mem_mmRaw_length (List.getElem_mem hiM)]
      exact hj
    have hjb : j < b.length := by rw [hb]; exact hj
    rw [entry_addBias (mmRaw x W) b i j hiM hjM hjb,
      entry_mmRaw x W i j hi hj hxi]

/-- Witness for C5 at the concrete layer: input `[[1, 2]]`, identity
weight matrix `[[1, 0], [0, 1]]`, bias `[3, 4]`. -/
theorem linear_correct_witness :
    ((∀ r ∈ ([[(1 : ℚ), 2]] : List (List ℚ)),
        r.length = ([[(1 : ℚ), 0], [0, 1]] : List (List ℚ)).length) ∧
      (∀ r ∈ ([[(1 : ℚ), 0], [0, 1]] : List (List ℚ)),
        r.length = nCols ([[(1 : ℚ), 0], [0, 1]] : List (List ℚ))) ∧
      ([(3 : ℚ), 4] : List ℚ).length =
        nCols ([[(1 : ℚ), 0], [0, 1]] : List (List ℚ))) ∧
    (∃ y, linear [[(1 : ℚ), 2]] [[(1 : ℚ), 0], [0, 1]] [(3 : ℚ), 4] =
        .ok y ∧
      y.length = ([[(1 : ℚ), 2]] : List (List ℚ)).length ∧
      (∀ r ∈ y, r.length = nCols ([[(1 : ℚ), 0], [0, 1]] : List (List ℚ))) ∧
      ∀ i j, i < ([[(1 : ℚ), 2]] : List (List ℚ)).length →
          j < nCols ([[(1 : ℚ), 0], [0, 1]] : List (List ℚ)) →
        entry y i j =
          (∑ k ∈ Finset.range
              ([[(1 : ℚ), 0], [0, 1]] : List (List ℚ)).length,
            entry ([[(1 : ℚ), 2]] : List (List ℚ)) i k *
              entry ([[(1 : ℚ), 0], [0, 1]] : List (List ℚ)) k j) +
            ([(3 : ℚ), 4] : List ℚ).getD j 0) :=
  ⟨⟨by simp, by simp [nCols], by simp [nCols]⟩,
    linear_correct [[(1 : ℚ), 2]] [[(1 : ℚ), 0], [0, 1]] [(3 : ℚ), 4]
      (by simp) (by simp [nCols]) (by simp [nCols])⟩

/-- Claim C4: for any batch size N and correctly-shaped layer parameters
(hidden width `b1.length`, here arbitrary; the notebook uses 256), the
network `forward` on an input batch of shape (N, 784) succeeds and
returns a batch of shape (N, 10). -/
theorem forward_output_shape (x W1 : List (List ℝ)) (b1 : List ℝ)
    (W2 : List (List ℝ)) (b2 : List ℝ)
    (hx : ∀ r ∈ x, r.length = 784)
    (hW1len : W1.length = 784)
    (hW1 : ∀ r ∈ W1, r.length = b1.length)
    (hW2len : W2.length = b1.length)
    (hW2ne : W2 ≠ [])
    (hW2 : ∀ r ∈ W2, r.length = 10)
    (hb2 : b2.length = 10) :
    ∃ y, forward x W1 b1 W2 b2 = .ok y ∧ y.length = x.length ∧
      ∀ r ∈ y, r.length = 10 := by
  have hW1ne : W1 ≠ [] := by
    intro hcon
    rw [hcon] at hW1len
    exact absurd hW1len (by simp)
  have hnc1 : nCols W1 = b1.length := by
    obtain ⟨w, t, rfl⟩ := List.exists_cons_of_ne_nil hW1ne
    simpa [nCols] using hW1 w (List.mem_cons_self w t)
  have hnc2 : nCols W2 = 10 := by
    obtain ⟨w, t, rfl⟩ := List.exists_cons_of_ne_nil hW2ne
    simpa [nCols] using hW2 w (List.mem_cons_self w t)
  have hlin1 : linear x W1 b1 = .ok (addBias (mmRaw x W1) b1) :=
    linear_ok_of_uniform (fun r hr => by rw [hW1len]; exact hx r hr) hnc1
  have hrows1 : ∀ r ∈ addBias (mmRaw x W1) b1, r.length = b1.length := by
    intro r hr
    obtain ⟨s, hs, hrl⟩ := mem_addBias_length hr
    rw [hrl, mem_mmRaw_length hs, hnc1, min_self]
  have hrows2 : ∀ r ∈ activation (addBias (mmRaw x W1) b1),
      r.length = W2.length := by
    intro r hr
    obtain ⟨s, hs, hrl⟩ := mem_mapBatch_length hr
    rw [hW2len, hrl]
    exact hrows1 s hs
  have hlin2 : linear (activation (addBias (mmRaw x W1) b1)) W2 b2 =
      .ok (addBias (mmRaw (activation (addBias (mmRaw x W1) b1)) W2) b2) :=
    linear_ok_of_uniform hrows2 (by rw [hnc2, hb2])
  refine ⟨nnSoftmax (addBias
      (mmRaw (activation (addBias (mmRaw x W1) b1)) W2) b2), ?_, ?_, ?_⟩
  · unfold forward
    simp only [hlin1, hlin2]
  · simp [length_nnSoftmax, length_addBias, length_mmRaw, activation,
      length_mapBatch]
  · intro r hr
    obtain ⟨s, hs, hrl⟩ := mem_nnSoftmax_length hr
    obtain ⟨u, hu, hsl⟩ := mem_addBias_length hs
    rw [hrl, hsl, mem_mmRaw_length hu, hnc2, hb2, min_self]

/-- Witness for C4 at a concrete well-shaped parameter set: a batch of
one all-zero row of width 784, a hidden layer of width 1, and an output
layer of width 10. -/
theorem forward_output_shape_witness :
    ((∀ r ∈ ([List.replicate 784 (0 : ℝ)] : List (List ℝ)),
        r.length = 784) ∧
      (List.replicate 784 [(0 : ℝ)]).length = 784 ∧
      (∀ r ∈ List.replicate 784 [(0 : ℝ)],
        r.length = ([(0 : ℝ)] : List ℝ).length) ∧
      ([List.replicate 10 (0 : ℝ)] : List (List ℝ)).length =
        ([(0 : ℝ)] : List ℝ).length ∧
      ([List.replicate 10 (0 : ℝ)] : List (List ℝ)) ≠ [] ∧
      (∀ r ∈ ([List.replicate 10 (0 : ℝ)] : List (List ℝ)),
        r.length = 10) ∧
      (List.replicate 10 (0 : ℝ)).length = 10) ∧
    (∃ y, forward [List.replicate 784 (0 : ℝ)]
        (List.replicate 784 [(0 : ℝ)]) [(0 : ℝ)]
        [List.replicate 10 (0 : ℝ)] (List.replicate 10 (0 : ℝ)) = .ok y ∧
      y.length = ([List.replicate 784 (0 : ℝ)] : List (List ℝ)).length ∧
      ∀ r ∈ y, r.length = 10) :=
  ⟨⟨fun r hr => by rw [List.mem_singleton.mp hr, List.length_replicate],
    List.length_replicate 784 [(0 : ℝ)],
    fun r hr => by rw [List.eq_of_mem_replicate hr],
    rfl,
    List.cons_ne_nil _ _,
    fun r hr => by rw [List.mem_singleton.mp hr, List.length_replicate],
    List.length_replicate 10 (0 : ℝ)⟩,
    forward_output_shape [List.replicate 784 (0 : ℝ)]
      (List.replicate 784 [(0 : ℝ)]) [(0 : ℝ)]
      [List.replicate 10 (0 : ℝ)] (List.replicate 10 (0 : ℝ))
      (fun r hr => by rw [List.mem_singleton.mp hr, List.length_replicate])
      (List.length_replicate 784 [(0 : ℝ)])
      (fun r hr => by rw [List.eq_of_mem_replicate hr])
      rfl
      (List.cons_ne_nil _ _)
      (fun r hr => by rw [List.mem_singleton.mp hr, List.length_replicate])
      (List.length_replicate 10 (0 : ℝ))⟩

end Notebook
